import Mathlib

/-!
Shallow embedding of the core analysis engine of the mcp-neo4j-query-optimizer
repository (src/mcp_neo4j_optimizer/agent.py), together with theorems settling
the specification claims about it.

Python strings are modelled as Lean `String` (a packed `List Char`); Python
`needle in hay` is the infix test `substr`; `str.upper()` is an ASCII
character map; `str.strip()` drops leading and trailing whitespace;
`str.replace` is a left-to-right non-overlapping textual substitution.
Python dicts built with a fixed set of keys are modelled as structures whose
fields are those keys in insertion order; histograms (`dict` used as a
counter) are association lists in insertion order.
-/

/-! ## String primitives (Python `in`, `upper`, `strip`, `replace`) -/

/-- Python `needle in hay` on strings: substring containment. -/
def substr (needle hay : String) : Bool := decide (needle.toList <:+: hay.toList)

/-- Python whitespace as stripped by `str.strip()` (ASCII range). -/
def pySpace (c : Char) : Bool :=
  c = ' ' || c = '\t' || c = '\n' || c = '\r' || c = '\x0b' || c = '\x0c'

/-- Python `str.upper()` restricted to ASCII letters (all queries analysed by
the tool are ASCII Cypher text). -/
def pyUpper (s : String) : String := String.mk (s.toList.map Char.toUpper)

/-- Core of `str.strip()`: drop leading whitespace, then trailing whitespace. -/
def pyStripList (l : List Char) : List Char :=
  ((l.dropWhile pySpace).reverse.dropWhile pySpace).reverse

/-- Python `str.strip()`. -/
def pyStrip (s : String) : String := String.mk (pyStripList s.toList)

/-- Python `str.replace(old, new)` on character lists, fuel-indexed so the
definition is structural (fuel `≥` input length makes the `0` case dead:
every step consumes at least one character when `pat` is nonempty). -/
def replaceFuel (pat rep : List Char) : Nat → List Char → List Char
  | _, [] => []
  | 0, s => s
  | f+1, c :: rest =>
    if pat.isPrefixOf (c :: rest) then
      rep ++ replaceFuel pat rep f ((c :: rest).drop pat.length)
    else
      c :: replaceFuel pat rep f rest

/-- Python `s.replace(old, new)` (`old` is nonempty at every call site in the
source, so the degenerate empty-pattern behaviour of Python is irrelevant). -/
def pyReplace (s old new : String) : String :=
  String.mk (replaceFuel old.toList new.toList s.toList.length s.toList)

/-! ## Operator Classifier (`Neo4jAnalyzer._is_leaf_operator` etc.) -/

/-- Fixed catalog used by `_is_leaf_operator` (agent.py lines 100-117). -/
def leaf_operators : List String :=
  ["AllNodesScan", "Argument", "ArgumentTracker", "AssertingMultiNodeIndexSeek",
   "AssertingMultiRelationshipIndexSeek", "AssertingSingleNodeIndexSeek",
   "AssertingSingleRelationshipIndexSeek", "DirectedAllRelationshipsScan",
   "DirectedRelationshipByElementIdSeek", "DirectedRelationshipByIdSeek",
   "DirectedRelationshipIndexContainsScan", "DirectedRelationshipIndexEndsWithScan",
   "DirectedRelationshipIndexScan", "DirectedRelationshipIndexSeek",
   "DirectedRelationshipIndexSeekByRange", "DirectedRelationshipTypeScan",
   "DirectedUnionRelationshipTypesScan", "NodeByElementIdSeek", "NodeByIdSeek",
   "NodeByLabelScan", "NodeIndexContainsScan", "NodeIndexEndsWithScan",
   "NodeIndexScan", "NodeIndexSeek", "NodeIndexSeekByRange", "NodeUniqueIndexSeek",
   "NodeUniqueIndexSeekByRange", "UndirectedAllRelationshipsScan",
   "UndirectedRelationshipByElementIdSeek", "UndirectedRelationshipByIdSeek",
   "UndirectedRelationshipIndexContainsScan", "UndirectedRelationshipIndexEndsWithScan",
   "UndirectedRelationshipIndexScan", "UndirectedRelationshipIndexSeek",
   "UndirectedRelationshipIndexSeekByRange", "UndirectedRelationshipTypeScan",
   "UndirectedUnionRelationshipTypesScan", "UnionNodeByLabelsScan"]

/-- Fixed catalog used by `_is_updating_operator` (agent.py lines 122-126). -/
def updating_operators : List String :=
  ["Create", "Delete", "MergeCreateNode", "MergeCreateRelationship",
   "RemoveLabels", "SetLabels", "SetNodeProperties", "SetNodeProperty",
   "SetProperties", "SetProperty", "SetRelationshipProperties", "SetRelationshipProperty"]

/-- Fixed catalog used by `_is_eager_operator` (agent.py lines 131-134). -/
def eager_operators : List String :=
  ["EagerAggregation", "EagerLimit", "EagerSort", "EagerUnion",
   "ValueHashJoin", "CartesianProduct"]

/-- `Neo4jAnalyzer._is_leaf_operator`. -/
def is_leaf_operator (operator : String) : Bool := leaf_operators.contains operator

/-- `Neo4jAnalyzer._is_updating_operator`. -/
def is_updating_operator (operator : String) : Bool := updating_operators.contains operator

/-- `Neo4jAnalyzer._is_eager_operator`: catalog membership or the substring
rule `"Eager" in operator`. -/
def is_eager_operator (operator : String) : Bool :=
  eager_operators.contains operator || substr "Eager" operator

/-! ## Data model -/

/-- JSON-like values, used to render the Python dicts the analyzer returns so
that key-level statements (such as the absence of a `"severity"` key) can be
made about them. -/
inductive JVal : Type where
  | jstr (s : String) : JVal
  | jnat (n : Nat) : JVal
  | jbool (b : Bool) : JVal
  | jarr (l : List JVal) : JVal
  | jobj (l : List (String × JVal)) : JVal

/-- Lookup of a key in a rendered Python dict. -/
def jget : List (String × JVal) → String → Option JVal
  | [], _ => none
  | (k, v) :: rest, key => if k = key then some v else jget rest key

/-- Severity enum of the source (agent.py lines 26-32). The source declares it
but the analysis pipeline never constructs a value of it. -/
inductive Severity : Type where
  | Critical | High | Medium | Low | Info
deriving DecidableEq

/-- PerformanceIssue dataclass of the source (agent.py lines 34-44). Declared
in the source but never instantiated by the analysis pipeline. -/
structure PerformanceIssue : Type where
  severity : Severity
  operator : String
  issue : String
  suggestion : String
  impact : String
  depth : Nat
  estimated_rows : Option Nat := none
  db_hits : Option Nat := none
deriving DecidableEq

/-- Flat operator record as consumed by `analyze_operators`: the dict built by
`_extract_operators_from_plan` (agent.py lines 514-521), with the defaults of
the `op.get(...)` reads materialised as fields. -/
structure OperatorRecord : Type where
  operator : String
  estimated_rows : Nat
  db_hits : Nat
  depth : Nat
  args : List (String × String)
  identifiers : List String
deriving DecidableEq

/-- Value of the `"performance_characteristics"` key: the dict built by
`_get_operator_characteristics` (agent.py lines 139-160). -/
structure OperatorChar : Type where
  operator_type : String
  estimated_rows : Nat
  db_hits : Nat
  performance_indicators : List String
deriving DecidableEq

/-- One element of the list returned by `analyze_operators`: the
`operator_info` dict of agent.py lines 80-92, fields in key insertion order. -/
structure OperatorInfo : Type where
  operator : String
  clean_operator : String
  estimated_rows : Nat
  db_hits : Nat
  depth : Nat
  args : List (String × String)
  identifiers : List String
  is_leaf : Bool
  is_updating : Bool
  is_eager : Bool
  performance_characteristics : OperatorChar
deriving DecidableEq

/-- Rendering of `OperatorChar` as the Python dict it models. -/
def OperatorChar.toDict (c : OperatorChar) : List (String × JVal) :=
  [("operator_type", .jstr c.operator_type),
   ("estimated_rows", .jnat c.estimated_rows),
   ("db_hits", .jnat c.db_hits),
   ("performance_indicators", .jarr (c.performance_indicators.map .jstr))]

/-- Rendering of `OperatorInfo` as the Python dict it models: exactly the keys
written at agent.py lines 80-92, in insertion order. -/
def OperatorInfo.toDict (o : OperatorInfo) : List (String × JVal) :=
  [("operator", .jstr o.operator),
   ("clean_operator", .jstr o.clean_operator),
   ("estimated_rows", .jnat o.estimated_rows),
   ("db_hits", .jnat o.db_hits),
   ("depth", .jnat o.depth),
   ("args", .jobj (o.args.map (fun p => (p.1, .jstr p.2)))),
   ("identifiers", .jarr (o.identifiers.map .jstr)),
   ("is_leaf", .jbool o.is_leaf),
   ("is_updating", .jbool o.is_updating),
   ("is_eager", .jbool o.is_eager),
   ("performance_characteristics", .jobj o.performance_characteristics.toDict)]

/-! ## Rule-Based Analyzer (`Neo4jAnalyzer`) -/

/-- `Neo4jAnalyzer._get_operator_characteristics` (agent.py lines 137-160):
sequential conditional appends to the `performance_indicators` list. -/
def get_operator_characteristics (operator : String) (estimated_rows db_hits : Nat) :
    OperatorChar :=
  let ind : List String := []
  let ind := if estimated_rows > 100000 then ind ++ ["high_row_count"] else ind
  let ind := if db_hits > 10000 then ind ++ ["high_db_hits"] else ind
  let ind := if ["AllNodesScan", "UndirectedAllRelationshipsScan"].contains operator then
      ind ++ ["full_scan"] else ind
  let ind := if ["CartesianProduct"].contains operator then ind ++ ["cartesian_product"] else ind
  let ind := if substr "Index" operator then ind ++ ["index_usage"] else ind
  let ind := if substr "Eager" operator then ind ++ ["eager_operation"] else ind
  ⟨operator, estimated_rows, db_hits, ind⟩

/-- Loop body of `Neo4jAnalyzer.analyze_operators` (agent.py lines 70-94):
builds one `operator_info` dict from one flat operator record.
`clean_operator` is `operator.split("@")[0] if "@" in operator else operator`;
the prefix before the first `@` equals `takeWhile (· ≠ '@')`. -/
def analyze_operator_record (op : OperatorRecord) : OperatorInfo :=
  let operator := op.operator
  let clean_operator :=
    if substr "@" operator then String.mk (operator.toList.takeWhile (· ≠ '@')) else operator
  { operator := operator
    clean_operator := clean_operator
    estimated_rows := op.estimated_rows
    db_hits := op.db_hits
    depth := op.depth
    args := op.args
    identifiers := op.identifiers
    is_leaf := is_leaf_operator clean_operator
    is_updating := is_updating_operator clean_operator
    is_eager := is_eager_operator clean_operator
    performance_characteristics :=
      get_operator_characteristics clean_operator op.estimated_rows op.db_hits }

/-- `Neo4jAnalyzer.analyze_operators` (agent.py lines 66-96). The `query`
argument is accepted and ignored, as in the source. -/
def analyze_operators (operators : List OperatorRecord) (_query : String) :
    List OperatorInfo :=
  operators.map analyze_operator_record

/-- `Neo4jAnalyzer._extract_performance_indicators` (agent.py lines 208-215):
Python builds a `set` and returns `list(set)`, whose order is unspecified;
modelled as concatenation deduplicated in first-occurrence order, so that the
membership (set) content is faithful. -/
def extract_performance_indicators (operator_data : List OperatorInfo) : List String :=
  (operator_data.foldl
    (fun acc op => acc ++ op.performance_characteristics.performance_indicators) []).dedup

/-! ## Plan Tree Model and Plan Normalizer -/

mutual
/-- A node of the execution plan tree: the dict shape consumed by
`_extract_operators_from_plan` and `compare_plans` (keys `operator` /
`operatorType`, `estimated_rows`, `db_hits`, `args`, `identifiers`,
`children`). Missing keys default to the values the `.get` reads supply, so a
model node carries every field. -/
inductive PlanNode : Type where
  | node (operator : String) (estimated_rows : Nat) (db_hits : Nat)
      (args : List (String × String)) (identifiers : List String)
      (children : PlanForest) : PlanNode
/-- The `children` list of a plan node. -/
inductive PlanForest : Type where
  | nil : PlanForest
  | cons (hd : PlanNode) (tl : PlanForest) : PlanForest
end

mutual
/-- `extract_recursive` of `Neo4jOptimizerAgent._extract_operators_from_plan`
(agent.py lines 504-525): pre-order traversal appending one flat record per
node, incrementing `depth` for the children. -/
def extract_operators_from_node (node : PlanNode) (depth : Nat) : List OperatorRecord :=
  match node with
  | .node operator estimated_rows db_hits args identifiers children =>
    ⟨operator, estimated_rows, db_hits, depth, args, identifiers⟩ ::
      extract_operators_from_forest children (depth + 1)
/-- Child loop of `extract_recursive`. -/
def extract_operators_from_forest (children : PlanForest) (depth : Nat) :
    List OperatorRecord :=
  match children with
  | .nil => []
  | .cons c cs => extract_operators_from_node c depth ++ extract_operators_from_forest cs depth
end

/-- `Neo4jOptimizerAgent._extract_operators_from_plan` (agent.py lines
500-530), starting at depth 0. -/
def extract_operators_from_plan (plan : PlanNode) : List OperatorRecord :=
  extract_operators_from_node plan 0

/-- `Neo4jOptimizerAgent.analyze_plan_issues` (agent.py lines 492-498):
extracts the flat operator records and hands them to `analyze_operators`. -/
def analyze_plan_issues (plan : PlanNode) (query : String) : List OperatorInfo :=
  analyze_operators (extract_operators_from_plan plan) query

mutual
/-- The list of nodes reachable from a node (itself included), in pre-order;
used to state the roll-up claims. -/
def allNodes : PlanNode → List PlanNode
  | .node operator estimated_rows db_hits args identifiers children =>
    .node operator estimated_rows db_hits args identifiers children :: allNodesF children
/-- Nodes reachable from a forest. -/
def allNodesF : PlanForest → List PlanNode
  | .nil => []
  | .cons c cs => allNodes c ++ allNodesF cs
end

/-- The `estimated_rows` field of a node. -/
def PlanNode.rows : PlanNode → Nat
  | .node _ estimated_rows _ _ _ _ => estimated_rows

/-! ## Plan Comparator (`Neo4jOptimizerAgent.compare_plans`) -/

/-- Python `operator_counts[op] = operator_counts.get(op, 0) + 1` on an
insertion-ordered dict modelled as an association list. -/
def bump : List (String × Nat) → String → List (String × Nat)
  | [], key => [(key, 1)]
  | (k, v) :: rest, key =>
    if k = key then (k, v + 1) :: rest else (k, v) :: bump rest key

/-- Python `histogram.get(op, 0)`. -/
def hist_get : List (String × Nat) → String → Nat
  | [], _ => 0
  | (k, v) :: rest, key => if k = key then v else hist_get rest key

mutual
/-- `count_operators` nested in `compare_plans` (agent.py lines 550-561):
pre-order accumulation of an operator histogram. -/
def count_operators (plan : PlanNode) (operator_counts : List (String × Nat)) :
    List (String × Nat) :=
  match plan with
  | .node operator _ _ _ _ children =>
    count_operators_forest children (bump operator_counts operator)
/-- Child loop of `count_operators`. -/
def count_operators_forest (children : PlanForest) (operator_counts : List (String × Nat)) :
    List (String × Nat) :=
  match children with
  | .nil => operator_counts
  | .cons c cs => count_operators_forest cs (count_operators c operator_counts)
end

mutual
/-- `estimate_total_rows` nested in `compare_plans` (agent.py lines 563-569):
the node contributes its own `estimated_rows` plus the recursive totals of its
children. -/
def estimate_total_rows : PlanNode → Nat
  | .node _ estimated_rows _ _ _ children =>
    estimated_rows + estimate_total_rows_forest children
/-- Child loop of `estimate_total_rows`. -/
def estimate_total_rows_forest : PlanForest → Nat
  | .nil => 0
  | .cons c cs => estimate_total_rows c + estimate_total_rows_forest cs
end

/-- `Neo4jOptimizerAgent._identify_improvements` (agent.py lines 582-609):
six fixed comparisons appending in source order, then the fallback when the
list is still empty. The message strings are byte-for-byte the literals of the
source file. -/
def identify_improvements (original_ops optimized_ops : List (String × Nat)) :
    List String :=
  let improvements : List String := []
  let improvements :=
    if hist_get original_ops "AllNodesScan" > hist_get optimized_ops "AllNodesScan" then
      improvements ++ ["‚úÖ Reduced full database scans"] else improvements
  let improvements :=
    if hist_get original_ops "CartesianProduct" > hist_get optimized_ops "CartesianProduct" then
      improvements ++ ["‚úÖ Eliminated cartesian products"] else improvements
  let improvements :=
    if hist_get original_ops "DirectedAllRelationshipsScan" >
        hist_get optimized_ops "DirectedAllRelationshipsScan" then
      improvements ++ ["‚úÖ Reduced relationship scans"] else improvements
  let improvements :=
    if hist_get optimized_ops "NodeByLabelScan" > hist_get original_ops "NodeByLabelScan" then
      improvements ++ ["‚úÖ Added efficient label-based scans"] else improvements
  let improvements :=
    if hist_get optimized_ops "NodeIndexScan" > hist_get original_ops "NodeIndexScan" then
      improvements ++ ["‚úÖ Utilized index scans"] else improvements
  let improvements :=
    if hist_get optimized_ops "Limit" > hist_get original_ops "Limit" then
      improvements ++ ["‚úÖ Added result limiting"] else improvements
  let improvements :=
    if improvements.isEmpty then
      improvements ++ ["‚ÑπÔ∏è  Query structure maintained with minor optimizations"]
    else improvements
  improvements

/-- Result shape of `compare_plans` (agent.py lines 574-580). -/
structure ComparisonResult : Type where
  original_operators : List (String × Nat)
  optimized_operators : List (String × Nat)
  original_estimated_rows : Nat
  optimized_estimated_rows : Nat
  improvements : List String

/-- `Neo4jOptimizerAgent.compare_plans` (agent.py lines 547-580). -/
def compare_plans (original_plan optimized_plan : PlanNode) : ComparisonResult :=
  let original_ops := count_operators original_plan []
  let optimized_ops := count_operators optimized_plan []
  { original_operators := original_ops
    optimized_operators := optimized_ops
    original_estimated_rows := estimate_total_rows original_plan
    optimized_estimated_rows := estimate_total_rows optimized_plan
    improvements := identify_improvements original_ops optimized_ops }

/-! ## Query Text Classifier -/

/-- `Neo4jAnalyzer._classify_query_type` (agent.py lines 217-229). -/
def classify_query_type (query : String) : String :=
  let query_upper := pyUpper query
  if substr "CREATE" query_upper then "write"
  else if substr "DELETE" query_upper || substr "REMOVE" query_upper then "delete"
  else if substr "SET" query_upper || substr "MERGE" query_upper then "update"
  else if substr "MATCH" query_upper && substr "RETURN" query_upper then "read"
  else "unknown"

/-- Generic first-match dispatch over an ordered list of guarded results, used
to state that `classify_query_type` is a first-match-wins precedence chain. -/
def first_match : List (Bool × String) → String → String
  | [], dflt => dflt
  | (cond, res) :: rest, dflt => if cond then res else first_match rest dflt

/-- Scan for the closing `]` of a lazy `\[.*?\]` regex match: succeeds at the
first `]`, fails at end of input or at a newline (which `.` cannot match),
returning the remainder after the match. -/
def bracketClose : List Char → Option (List Char)
  | [] => none
  | c :: rest =>
    if c = ']' then some rest
    else if c = '\n' then none
    else bracketClose rest

/-- Fuel-indexed scan counting the non-overlapping matches of the Python regex
`\[.*?\]` as `re.findall` produces them, left to right. -/
def countBracketsFuel : Nat → List Char → Nat
  | _, [] => 0
  | 0, _ => 0
  | f+1, c :: rest =>
    if c = '[' then
      match bracketClose rest with
      | some rest2 => 1 + countBracketsFuel f rest2
      | none => countBracketsFuel f rest
    else countBracketsFuel f rest

/-- `len(re.findall(r'\[.*?\]', query))` of the source (agent.py line 256). -/
def relationship_count (query : String) : Nat :=
  countBracketsFuel query.toList.length query.toList

/-- `Neo4jAnalyzer._assess_query_complexity` (agent.py lines 231-264). -/
def assess_query_complexity (query : String) : String :=
  let complexity_score : Nat := 0
  let complexity_score := if substr "MATCH" query then complexity_score + 1 else complexity_score
  let complexity_score := if substr "WHERE" query then complexity_score + 1 else complexity_score
  let complexity_score := if substr "ORDER BY" query then complexity_score + 1 else complexity_score
  let complexity_score := if substr "LIMIT" query then complexity_score + 1 else complexity_score
  let complexity_score :=
    if substr "COUNT(" query || substr "SUM(" query || substr "AVG(" query then
      complexity_score + 2 else complexity_score
  let complexity_score :=
    if substr "UNION" (pyUpper query) then complexity_score + 2 else complexity_score
  let complexity_score :=
    if substr "CASE" (pyUpper query) then complexity_score + 1 else complexity_score
  let complexity_score :=
    if substr "WITH" (pyUpper query) then complexity_score + 1 else complexity_score
  let complexity_score := complexity_score + min (relationship_count query) 3
  if complexity_score ≤ 2 then "simple"
  else if complexity_score ≤ 5 then "medium"
  else "complex"

/-! ## Naive Rewriter (`Neo4jOptimizerAgent.generate_optimized_query`) -/

/-- First transformation of `generate_optimized_query` (agent.py lines
539-540): insert the placeholder label when `"MATCH (n)"` occurs and `":"`
occurs nowhere in the stripped query. -/
def rewrite_label_stage (optimized : String) : String :=
  if substr "MATCH (n)" optimized && ! substr ":" optimized then
    pyReplace optimized "MATCH (n)" "MATCH (n:Node)"
  else optimized

/-- Second transformation of `generate_optimized_query` (agent.py lines
542-543): append the default limit clause when neither `LIMIT` nor `COUNT(`
occurs in the upper-cased text. -/
def rewrite_limit_stage (optimized : String) : String :=
  if ! substr "LIMIT" (pyUpper optimized) && ! substr "COUNT(" (pyUpper optimized) then
    optimized ++ " LIMIT 1000"
  else optimized

/-- `Neo4jOptimizerAgent.generate_optimized_query` (agent.py lines 532-545):
strip, then the two sequential textual transformations. The `operator_data`
argument is accepted and ignored, as in the source body. -/
def generate_optimized_query (original_query : String)
    (_operator_data : List OperatorInfo) : String :=
  rewrite_limit_stage (rewrite_label_stage (pyStrip original_query))

/-! ## Concrete scenario inputs used by the claims -/

/-- Plan of the C1 scenario: a single `AllNodesScan` node. -/
def c1_plan : PlanNode := .node "AllNodesScan" 1000 1000 [] [] .nil

/-- Record extracted from `c1_plan`. -/
def c1_record : OperatorRecord := ⟨"AllNodesScan", 1000, 1000, 0, [], []⟩

/-- Plan of the C2 counterexample: one `NodeByLabelScan` node with
`db_hits = 15000`. -/
def c2_plan : PlanNode := .node "NodeByLabelScan" 10 15000 [] [] .nil

/-- Record extracted from `c2_plan`. -/
def c2_record : OperatorRecord := ⟨"NodeByLabelScan", 10, 15000, 0, [], []⟩

/-- Plan of the C3 scenario: root `AllNodesScan(rows=1000)` with one child
`Filter(rows=100)`. -/
def c3_plan : PlanNode :=
  .node "AllNodesScan" 1000 0 [] [] (.cons (.node "Filter" 100 0 [] [] .nil) .nil)

/-- Original histogram of the C5 scenario. -/
def c5_original : List (String × Nat) := [("AllNodesScan", 1), ("CartesianProduct", 1)]

/-- Optimized histogram of the C5 scenario. -/
def c5_optimized : List (String × Nat) := [("NodeByLabelScan", 1), ("Limit", 1)]

/-! ## Helper lemmas -/

/-- Membership in a conditional append of a singleton. -/
theorem mem_ite_append {c : Prop} [Decidable c] {l : List String} {s x : String} :
    x ∈ (if c then l ++ [s] else l) ↔ (x ∈ l ∨ (c ∧ x = s)) := by
  split <;> simp_all

/-- Membership in a fold that concatenates per-element lists. -/
theorem mem_foldl_append (f : OperatorInfo → List String) :
    ∀ (data : List OperatorInfo) (acc : List String) (x : String),
      x ∈ data.foldl (fun a op => a ++ f op) acc ↔ x ∈ acc ∨ ∃ op ∈ data, x ∈ f op := by
  intro data
  induction data with
  | nil => simp
  | cons hd tl ih =>
    intro acc x
    simp only [List.foldl_cons, ih, List.mem_append, List.mem_cons]
    constructor
    · rintro (( h | h ) | ⟨op, hop, hx⟩)
      · exact Or.inl h
      · exact Or.inr ⟨hd, Or.inl rfl, h⟩
      · exact Or.inr ⟨op, Or.inr hop, hx⟩
    · rintro ( h | ⟨op, ( rfl | hop ), hx⟩)
      · exact Or.inl (Or.inl h)
      · exact Or.inl (Or.inr hx)
      · exact Or.inr ⟨op, hop, hx⟩

mutual
/-- Rolled-up rows of a node agree with the sum over its reachable nodes. -/
theorem est_rows_node (t : PlanNode) :
    estimate_total_rows t = ((allNodes t).map PlanNode.rows).sum := by
  cases t with
  | node op er dh a i cs =>
    simp [estimate_total_rows, allNodes, PlanNode.rows, est_rows_forest cs]
/-- Rolled-up rows of a forest agree with the sum over its reachable nodes. -/
theorem est_rows_forest (f : PlanForest) :
    estimate_total_rows_forest f = ((allNodesF f).map PlanNode.rows).sum := by
  cases f with
  | nil => simp [estimate_total_rows_forest, allNodesF]
  | cons c cs =>
    simp [estimate_total_rows_forest, allNodesF, est_rows_node c, est_rows_forest cs]
end

/-- Bumping a histogram key adds one to the total count. -/
theorem bump_snd_sum (m : List (String × Nat)) (k : String) :
    ((bump m k).map Prod.snd).sum = (m.map Prod.snd).sum + 1 := by
  induction m with
  | nil => simp [bump]
  | cons hd tl ih =>
    obtain ⟨k1, v1⟩ := hd
    by_cases h : k1 = k <;> simp [bump, h, ih] <;> omega

mutual
/-- Histogram accumulation over a node adds exactly its node count. -/
theorem count_sum_node (t : PlanNode) :
    ∀ acc, ((count_operators t acc).map Prod.snd).sum
      = (acc.map Prod.snd).sum + (allNodes t).length := by
  cases t with
  | node op er dh a i cs =>
    intro acc
    simp only [count_operators, allNodes, List.length_cons]
    rw [count_sum_forest cs, bump_snd_sum]
    omega
/-- Histogram accumulation over a forest adds exactly its node count. -/
theorem count_sum_forest (f : PlanForest) :
    ∀ acc, ((count_operators_forest f acc).map Prod.snd).sum
      = (acc.map Prod.snd).sum + (allNodesF f).length := by
  cases f with
  | nil => intro acc; simp [count_operators_forest, allNodesF]
  | cons c cs =>
    intro acc
    simp only [count_operators_forest, allNodesF, List.length_append]
    rw [count_sum_forest cs, count_sum_node c]
    omega
end

/-! ## C3: estimate_total_rows sums estimated_rows over all reachable nodes -/

/-- C3: for every plan tree, `estimate_total_rows` (as used inside
`compare_plans`) equals the sum of the `estimated_rows` field over every node
reachable from the root, the root included; in particular a root
`AllNodesScan` with 1000 rows and one child `Filter` with 100 rows yields
1100. -/
theorem spec_c3 :
    (∀ t : PlanNode, estimate_total_rows t = ((allNodes t).map PlanNode.rows).sum) ∧
    estimate_total_rows c3_plan = 1100 :=
  ⟨est_rows_node, by decide⟩

/-! ## C4: count_operators histogram values sum to the node count -/

/-- C4: for every plan tree, the sum of the occurrence counts in the histogram
returned by `count_operators` (as used inside `compare_plans`, starting from
the empty histogram) equals the total number of nodes in the tree; on the C3
scenario tree the histogram is exactly AllNodesScan 1, Filter 1. -/
theorem spec_c4 :
    (∀ t : PlanNode, ((count_operators t []).map Prod.snd).sum = (allNodes t).length) ∧
    count_operators c3_plan [] = [("AllNodesScan", 1), ("Filter", 1)] :=
  ⟨fun t => by simpa using count_sum_node t [], by decide⟩

/-! ## C5: comparator improvements -/

/-- C5: the improvement list equals the concatenation of the six fixed
independent histogram comparisons in source order, with exactly one fallback
message when none triggers; the scenario histograms produce the four expected
improvements in that relative order. -/
theorem spec_c5 :
    (∀ original_ops optimized_ops : List (String × Nat),
      identify_improvements original_ops optimized_ops =
        (let triggered :=
          (if hist_get original_ops "AllNodesScan" > hist_get optimized_ops "AllNodesScan" then
            ["‚úÖ Reduced full database scans"] else []) ++
          (if hist_get original_ops "CartesianProduct" >
              hist_get optimized_ops "CartesianProduct" then
            ["‚úÖ Eliminated cartesian products"] else []) ++
          (if hist_get original_ops "DirectedAllRelationshipsScan" >
              hist_get optimized_ops "DirectedAllRelationshipsScan" then
            ["‚úÖ Reduced relationship scans"] else []) ++
          (if hist_get optimized_ops "NodeByLabelScan" >
              hist_get original_ops "NodeByLabelScan" then
            ["‚úÖ Added efficient label-based scans"] else []) ++
          (if hist_get optimized_ops "NodeIndexScan" > hist_get original_ops "NodeIndexScan" then
            ["‚úÖ Utilized index scans"] else []) ++
          (if hist_get optimized_ops "Limit" > hist_get original_ops "Limit" then
            ["‚úÖ Added result limiting"] else [])
        if triggered = [] then
          ["‚ÑπÔ∏è  Query structure maintained with minor optimizations"]
        else triggered)) ∧
    identify_improvements c5_original c5_optimized =
      ["‚úÖ Reduced full database scans", "‚úÖ Eliminated cartesian products",
       "‚úÖ Added efficient label-based scans", "‚úÖ Added result limiting"] := by
  constructor
  · intro o p
    unfold identify_improvements
    by_cases h1 : hist_get o "AllNodesScan" > hist_get p "AllNodesScan" <;>
      by_cases h2 : hist_get o "CartesianProduct" > hist_get p "CartesianProduct" <;>
      by_cases h3 : hist_get o "DirectedAllRelationshipsScan" >
        hist_get p "DirectedAllRelationshipsScan" <;>
      by_cases h4 : hist_get p "NodeByLabelScan" > hist_get o "NodeByLabelScan" <;>
      by_cases h5 : hist_get p "NodeIndexScan" > hist_get o "NodeIndexScan" <;>
      by_cases h6 : hist_get p "Limit" > hist_get o "Limit" <;>
      simp [h1, h2, h3, h4, h5, h6]
  · decide

/-! ## C6: query type classification precedence -/

/-- C6: `classify_query_type` upper-cases the query and is the first-match-wins
precedence chain CREATE to write, DELETE/REMOVE to delete, SET/MERGE to
update, MATCH-and-RETURN to read, otherwise unknown; witnessed on concrete
queries for each branch, including precedence collisions. -/
theorem spec_c6 :
    (∀ query : String,
      classify_query_type query =
        first_match
          [(substr "CREATE" (pyUpper query), "write"),
           (substr "DELETE" (pyUpper query) || substr "REMOVE" (pyUpper query), "delete"),
           (substr "SET" (pyUpper query) || substr "MERGE" (pyUpper query), "update"),
           (substr "MATCH" (pyUpper query) && substr "RETURN" (pyUpper query), "read")]
          "unknown") ∧
    classify_query_type "MATCH (n) RETURN n" = "read" ∧
    classify_query_type "CREATE (n:Person)" = "write" ∧
    classify_query_type "MATCH (n:Person) DELETE n" = "delete" ∧
    classify_query_type "MATCH (n:Person) SET n.age = 30 RETURN n" = "update" ∧
    classify_query_type "MERGE (n:Person) ON CREATE SET n.age = 1" = "write" ∧
    classify_query_type "SHOW DATABASES" = "unknown" := by
  refine ⟨fun query => rfl, ?_, ?_, ?_, ?_, ?_, ?_⟩ <;> decide

/-! ## C7: query complexity score -/

/-- Congruence for the three-way score bucketing of
`assess_query_complexity`. -/
theorem bucket_congr (a b : Nat) (h : a = b) :
    (if a ≤ 2 then "simple" else if a ≤ 5 then "medium" else "complex") =
      (if b ≤ 2 then "simple" else if b ≤ 5 then "medium" else "complex") := by
  rw [h]

set_option maxRecDepth 100000 in
/-- C7: `assess_query_complexity` scores one point each for MATCH, WHERE,
ORDER BY and LIMIT, two for an aggregation call or UNION, one for CASE or
WITH, plus at most three for bracketed relationship patterns, and buckets the
score as simple (at most 2), medium (3 to 5) or complex (above 5); checked on
three concrete queries, one per bucket. -/
theorem spec_c7 :
    (∀ query : String,
      assess_query_complexity query =
        (let score :=
          (if substr "MATCH" query then 1 else 0) +
          (if substr "WHERE" query then 1 else 0) +
          (if substr "ORDER BY" query then 1 else 0) +
          (if substr "LIMIT" query then 1 else 0) +
          (if substr "COUNT(" query || substr "SUM(" query || substr "AVG(" query then 2 else 0) +
          (if substr "UNION" (pyUpper query) then 2 else 0) +
          (if substr "CASE" (pyUpper query) then 1 else 0) +
          (if substr "WITH" (pyUpper query) then 1 else 0) +
          min 3 (relationship_count query)
        if score ≤ 2 then "simple" else if score ≤ 5 then "medium" else "complex")) ∧
    assess_query_complexity "MATCH (n) RETURN n" = "simple" ∧
    assess_query_complexity
      "MATCH (n) WHERE n.age > 25 ORDER BY n.name LIMIT 10 RETURN n" = "medium" ∧
    assess_query_complexity
      "MATCH (n:Person)-[r:KNOWS]->(m:Person) WHERE n.age > 25 WITH n, COUNT(m) AS friends ORDER BY friends LIMIT 5 RETURN n" = "complex" := by
  refine ⟨fun query => ?_, by decide, by decide, by decide⟩
  unfold assess_query_complexity
  apply bucket_congr
  generalize relationship_count query = r
  generalize substr "MATCH" query = b1
  generalize substr "WHERE" query = b2
  generalize substr "ORDER BY" query = b3
  generalize substr "LIMIT" query = b4
  generalize (substr "COUNT(" query || substr "SUM(" query || substr "AVG(" query) = b5
  generalize substr "UNION" (pyUpper query) = b6
  generalize substr "CASE" (pyUpper query) = b7
  generalize substr "WITH" (pyUpper query) = b8
  have hmin : min 3 r = min r 3 := Nat.min_comm 3 r
  rw [hmin]
  cases b1 <;> cases b2 <;> cases b3 <;> cases b4 <;> cases b5 <;> cases b6 <;>
    cases b7 <;> cases b8 <;> simp

/-! ## C8: per-node performance indicators and their query-level union -/

/-- C8: a node's derived performance indicators contain each tag exactly under
the stated threshold or name condition, and the query-level indicator set is
the union of the per-node sets. -/
theorem spec_c8 :
    (∀ (operator : String) (estimated_rows db_hits : Nat),
      ("high_row_count" ∈
          (get_operator_characteristics operator estimated_rows db_hits).performance_indicators
        ↔ estimated_rows > 100000) ∧
      ("high_db_hits" ∈
          (get_operator_characteristics operator estimated_rows db_hits).performance_indicators
        ↔ db_hits > 10000) ∧
      ("full_scan" ∈
          (get_operator_characteristics operator estimated_rows db_hits).performance_indicators
        ↔ (operator = "AllNodesScan" ∨ operator = "UndirectedAllRelationshipsScan")) ∧
      ("cartesian_product" ∈
          (get_operator_characteristics operator estimated_rows db_hits).performance_indicators
        ↔ operator = "CartesianProduct") ∧
      ("index_usage" ∈
          (get_operator_characteristics operator estimated_rows db_hits).performance_indicators
        ↔ substr "Index" operator = true) ∧
      ("eager_operation" ∈
          (get_operator_characteristics operator estimated_rows db_hits).performance_indicators
        ↔ substr "Eager" operator = true)) ∧
    (∀ (operator_data : List OperatorInfo) (x : String),
      x ∈ extract_performance_indicators operator_data ↔
        ∃ op ∈ operator_data, x ∈ op.performance_characteristics.performance_indicators) := by
  constructor
  · intro operator estimated_rows db_hits
    refine ⟨?_, ?_, ?_, ?_, ?_, ?_⟩ <;>
      simp [get_operator_characteristics, mem_ite_append]
  · intro operator_data x
    simp [extract_performance_indicators, List.mem_dedup,
      mem_foldl_append (fun op => op.performance_characteristics.performance_indicators)]

/-! ## C1: output of analyze_plan_issues on the single AllNodesScan plan -/

/-- C1 counterexample: on the scenario plan and query, `analyze_plan_issues`
returns exactly one record, and the record is the operator-data dict of the
source (its keys carry no severity, issue, suggestion or impact), so the
output contains zero Critical-severity PerformanceIssue findings rather than
exactly one. -/
theorem spec_c1_counterexample :
    (analyze_plan_issues c1_plan "MATCH (n) RETURN n").map (fun o => o.toDict.map Prod.fst)
      = [["operator", "clean_operator", "estimated_rows", "db_hits", "depth", "args",
          "identifiers", "is_leaf", "is_updating", "is_eager",
          "performance_characteristics"]] ∧
    (analyze_plan_issues c1_plan "MATCH (n) RETURN n").countP
      (fun o => (jget o.toDict "severity").isSome) = 0 := by
  constructor
  · decide
  · decide

/-- C1 amended: on the scenario plan and query, `analyze_plan_issues` returns
exactly one structured operator record, for AllNodesScan (clean operator name
AllNodesScan, a leaf, neither updating nor eager), whose performance
indicators flag exactly the full scan. -/
theorem spec_c1_amended :
    analyze_plan_issues c1_plan "MATCH (n) RETURN n" =
      [{ operator := "AllNodesScan", clean_operator := "AllNodesScan",
         estimated_rows := 1000, db_hits := 1000, depth := 0, args := [], identifiers := [],
         is_leaf := true, is_updating := false, is_eager := false,
         performance_characteristics := ⟨"AllNodesScan", 1000, 1000, ["full_scan"]⟩ }] := by
  decide

/-! ## C2: nodes with db_hits above 10000 -/

/-- C2 counterexample: a plan whose single node has `db_hits = 15000` (above
the threshold) yields an output containing zero severity-carrying findings of
any kind: the always-on rule marks the record with the `high_db_hits`
indicator instead of appending a High-severity finding. -/
theorem spec_c2_counterexample :
    (extract_operators_from_plan c2_plan).map OperatorRecord.db_hits = [15000] ∧
    (analyze_plan_issues c2_plan "MATCH (n:Person) RETURN n").countP
      (fun o => (jget o.toDict "severity").isSome) = 0 := by
  constructor
  · decide
  · decide

/-- C2 amended: for every plan and query, every extracted node record with
`db_hits > 10000` — regardless of its operator identity — contributes to the
analyzer output a record carrying the `high_db_hits` performance indicator,
independently of the other indicator rules. -/
theorem spec_c2_amended :
    ∀ (plan : PlanNode) (query : String) (r : OperatorRecord),
      r ∈ extract_operators_from_plan plan → r.db_hits > 10000 →
      analyze_operator_record r ∈ analyze_plan_issues plan query ∧
      "high_db_hits" ∈
        (analyze_operator_record r).performance_characteristics.performance_indicators := by
  intro plan query r hmem hdb
  constructor
  · exact List.mem_map_of_mem analyze_operator_record hmem
  · simp [analyze_operator_record, get_operator_characteristics, mem_ite_append, hdb]
    split <;> split <;> simp

/-- C2 witness: the amended statement applied to the concrete one-node plan
with `db_hits = 15000` and operator `NodeByLabelScan`. -/
theorem spec_c2_witness :
    c2_record ∈ extract_operators_from_plan c2_plan ∧ c2_record.db_hits > 10000 ∧
    (analyze_operator_record c2_record ∈
        analyze_plan_issues c2_plan "MATCH (n:Person) RETURN n" ∧
      "high_db_hits" ∈
        (analyze_operator_record c2_record).performance_characteristics.performance_indicators) :=
  ⟨by decide, by decide,
    spec_c2_amended c2_plan "MATCH (n:Person) RETURN n" c2_record (by decide) (by decide)⟩

/-! ## List lemmas for the rewriter proofs -/

/-- A prefix of an append is a prefix of the left part or extends it. -/
theorem pre_append_split {α : Type} (xs : List α) {ys u : List α} (h : u <+: xs ++ ys) :
    u <+: xs ∨ ∃ b, u = xs ++ b ∧ b <+: ys := by
  induction xs generalizing u with
  | nil => exact Or.inr ⟨u, rfl, h⟩
  | cons x xs ih =>
    cases u with
    | nil => exact Or.inl List.nil_prefix
    | cons a u2 =>
      obtain ⟨t, ht⟩ := h
      rw [List.cons_append] at ht
      injection ht with h1 h2
      subst h1
      rcases ih ⟨t, h2⟩ with h3 | ⟨b, rfl, hb⟩
      · exact Or.inl ((List.prefix_cons_inj a).mpr h3)
      · exact Or.inr ⟨b, by simp, hb⟩

/-- A prefix is in particular an infix. -/
theorem pre_inf {α : Type} {u l : List α} (h : u <+: l) : u <:+: l := by
  obtain ⟨t, ht⟩ := h
  exact ⟨[], t, by simpa using ht⟩

/-- An infix of the right part of an append is an infix of the append. -/
theorem inf_append_r {α : Type} {u ys : List α} (xs : List α) (h : u <:+: ys) :
    u <:+: xs ++ ys := by
  obtain ⟨p, q, rfl⟩ := h
  exact ⟨xs ++ p, q, by simp⟩

/-- An infix of the left part of an append is an infix of the append. -/
theorem inf_append_l {α : Type} {u xs : List α} (ys : List α) (h : u <:+: xs) :
    u <:+: xs ++ ys := by
  obtain ⟨p, q, rfl⟩ := h
  exact ⟨p, q ++ ys, by simp⟩

/-- An infix of an append is an infix of one part, or splits into a nonempty
suffix of the left part followed by a nonempty prefix of the right part. -/
theorem inf_append_split {α : Type} (xs : List α) {ys u : List α} (h : u <:+: xs ++ ys) :
    u <:+: xs ∨ u <:+: ys ∨
      ∃ a b, a ++ b = u ∧ a ≠ [] ∧ b ≠ [] ∧ a <:+ xs ∧ b <+: ys := by
  induction xs with
  | nil => simp at h; exact Or.inr (Or.inl h)
  | cons x xs ih =>
    rw [List.cons_append] at h
    rcases List.infix_cons_iff.mp h with hpre | hinf
    · rcases pre_append_split (x :: xs) hpre with h1 | ⟨b, rfl, hb⟩
      · exact Or.inl (pre_inf h1)
      · cases b with
        | nil => exact Or.inl (by simp)
        | cons d b2 =>
          exact Or.inr (Or.inr ⟨x :: xs, d :: b2, rfl, by simp, by simp,
            List.suffix_rfl, hb⟩)
    · rcases ih hinf with h1 | h2 | ⟨a, b, hab, ha, hb, hsuf, hpre2⟩
      · exact Or.inl (List.infix_cons h1)
      · exact Or.inr (Or.inl h2)
      · exact Or.inr (Or.inr ⟨a, b, hab, ha, hb, hsuf.trans (List.suffix_cons x xs), hpre2⟩)

/-- A single element is an infix exactly when it is a member. -/
theorem single_inf {α : Type} {c : α} {l : List α} : [c] <:+: l ↔ c ∈ l := by
  constructor
  · intro h
    exact h.sublist.subset (by simp)
  · intro h
    obtain ⟨s, t, rfl⟩ := List.append_of_mem h
    exact ⟨s, t, by simp⟩

/-- Members of an infix are members of the whole list. -/
theorem mem_of_inf {α : Type} {u l : List α} {c : α} (h : u <:+: l) (hc : c ∈ u) : c ∈ l :=
  h.sublist.subset hc

/-- Mapping a function preserves the infix relation. -/
theorem inf_map {α β : Type} (f : α → β) {u l : List α} (h : u <:+: l) :
    u.map f <:+: l.map f := by
  obtain ⟨p, q, rfl⟩ := h
  exact ⟨p.map f, q.map f, by simp⟩

/-- The head of a nonempty prefix is the head of the whole list. -/
theorem head_of_pre {α : Type} {u v : List α} {c : α} (h : u <+: v) (hc : u.head? = some c) :
    v.head? = some c := by
  obtain ⟨t, rfl⟩ := h
  cases u with
  | nil => simp at hc
  | cons a u2 => simpa using hc

/-- The last element of a nonempty suffix is the last element of the whole
list. -/
theorem last_of_suf {α : Type} {u v : List α} (h : u <:+ v) (hne : u ≠ []) :
    v.getLast? = u.getLast? := by
  obtain ⟨p, rfl⟩ := h
  exact List.getLast?_append_of_ne_nil p hne

/-- Substring test in terms of the infix relation of the character lists. -/
theorem substr_iff {n h : String} : substr n h = true ↔ n.toList <:+: h.toList := by
  simp [substr]

/-! ## Properties of the textual replacement -/

/-- Replacement of the empty list is empty for any fuel. -/
theorem RF_nil_fuel (pat rep : List Char) (f : Nat) : replaceFuel pat rep f [] = [] := by
  cases f <;> rfl

/-- Replacement with zero fuel returns its input. -/
theorem RF_zero (pat rep s : List Char) : replaceFuel pat rep 0 s = s := by
  cases s <;> rfl

/-- Unfolding of `replaceFuel` when the pattern matches at the head. -/
theorem RF_cons_pos {pat : List Char} (rep : List Char) {f : Nat} {c : Char} {rest : List Char}
    (h : pat.isPrefixOf (c :: rest) = true) :
    replaceFuel pat rep (f + 1) (c :: rest) =
      rep ++ replaceFuel pat rep f ((c :: rest).drop pat.length) := by
  simp [replaceFuel, h]

/-- Unfolding of `replaceFuel` when the pattern does not match at the head. -/
theorem RF_cons_neg {pat : List Char} (rep : List Char) {f : Nat} {c : Char} {rest : List Char}
    (h : pat.isPrefixOf (c :: rest) = false) :
    replaceFuel pat rep (f + 1) (c :: rest) = c :: replaceFuel pat rep f rest := by
  simp [replaceFuel, h]

/-- A prefix containing no occurrence of the pattern head is copied verbatim
by the replacement. -/
theorem pre_copy {p : Char} {ps rep : List Char} :
    ∀ (v : List Char), p ∉ v → ∀ (f : Nat) (w : List Char), v <+: w →
      v <+: replaceFuel (p :: ps) rep f w := by
  intro v
  induction v with
  | nil => intro _ f w _; exact List.nil_prefix
  | cons a v2 ih =>
    intro hp f w hpre
    obtain ⟨t, ht⟩ := hpre
    subst ht
    cases f with
    | zero => rw [RF_zero]; exact ⟨t, rfl⟩
    | succ f2 =>
      have hpa : p ≠ a := fun h => hp (h ▸ List.mem_cons_self a v2)
      have hne : (p :: ps).isPrefixOf (a :: (v2 ++ t)) = false := by
        simp only [List.isPrefixOf, Bool.and_eq_false_iff]
        exact Or.inl (beq_eq_false_iff_ne.mpr hpa)
      rw [List.cons_append, RF_cons_neg rep hne]
      exact (List.prefix_cons_inj a).mpr
        (ih (fun h => hp (List.mem_cons_of_mem a h)) f2 (v2 ++ t) ⟨t, rfl⟩)

/-- If the pattern occurs and the fuel suffices, the replacement string occurs
in the output. -/
theorem rep_in {pat rep : List Char} (hne : pat ≠ []) :
    ∀ (f : Nat) (w : List Char), w.length ≤ f → pat <:+: w →
      rep <:+: replaceFuel pat rep f w := by
  intro f
  induction f with
  | zero =>
    intro w hl hinf
    have hw : w = [] := List.eq_nil_of_length_eq_zero (Nat.le_zero.mp hl)
    subst hw
    exact absurd (List.eq_nil_of_infix_nil hinf) hne
  | succ f2 ih =>
    intro w hl hinf
    cases w with
    | nil => exact absurd (List.eq_nil_of_infix_nil hinf) hne
    | cons c rest =>
      by_cases hp : pat.isPrefixOf (c :: rest) = true
      · rw [RF_cons_pos rep hp]
        exact ⟨[], replaceFuel pat rep f2 ((c :: rest).drop pat.length), by simp⟩
      · rcases List.infix_cons_iff.mp hinf with hpre | hinf2
        · exact absurd (List.isPrefixOf_iff_prefix.mpr hpre) hp
        · rw [RF_cons_neg rep (Bool.eq_false_iff.mpr hp)]
          exact List.infix_cons (ih rest (by simpa using hl) hinf2)

/-- An occurrence of `COUNT(` survives the label substitution: `COUNT(` cannot
overlap an occurrence of `MATCH (n)` (no nonempty suffix of the pattern is a
prefix of `COUNT(`, and `COUNT(` does not contain the pattern head), so every
occurrence lies in copied or recursed-into text. -/
theorem count_preserved :
    ∀ (f : Nat) (w : List Char), w.length ≤ f → "COUNT(".toList <:+: w →
      "COUNT(".toList <:+: replaceFuel "MATCH (n)".toList "MATCH (n:Node)".toList f w := by
  intro f
  induction f with
  | zero =>
    intro w hl hinf
    have hw : w = [] := List.eq_nil_of_length_eq_zero (Nat.le_zero.mp hl)
    subst hw
    exact absurd (List.eq_nil_of_infix_nil hinf) (by decide)
  | succ f2 ih =>
    intro w hl hinf
    cases w with
    | nil => exact absurd (List.eq_nil_of_infix_nil hinf) (by decide)
    | cons c rest =>
      by_cases hp : ("MATCH (n)".toList).isPrefixOf (c :: rest) = true
      · obtain ⟨t, ht⟩ := List.isPrefixOf_iff_prefix.mp hp
        have hdrop : (c :: rest).drop ("MATCH (n)".toList).length = t := by
          rw [← ht]; exact List.drop_left _ _
        rw [RF_cons_pos _ hp, hdrop]
        rw [← ht] at hinf
        rcases inf_append_split ("MATCH (n)".toList) hinf with h1 | h2 | hcross
        · exact absurd h1 (by decide)
        · have hlen : t.length ≤ f2 := by
            have h9 : ("MATCH (n)".toList).length + t.length = (c :: rest).length := by
              rw [← List.length_append, ht]
            have hplen : ("MATCH (n)".toList).length = 9 := by decide
            have hb : (c :: rest).length = rest.length + 1 := by simp
            omega
          exact inf_append_r _ (ih t hlen h2)
        · obtain ⟨a, b, hab, ha, hb, hsuf, hpre2⟩ := hcross
          have hkill : ∀ x ∈ ("MATCH (n)".toList).tails,
              x.isPrefixOf "COUNT(".toList = true → x = [] := by decide
          exact absurd
            (hkill a ((List.mem_tails a ("MATCH (n)".toList)).mpr hsuf)
              (List.isPrefixOf_iff_prefix.mpr ⟨b, hab⟩)) ha
      · rcases List.infix_cons_iff.mp hinf with hpre | hinf2
        · have hMP : "MATCH (n)".toList = 'M' :: "ATCH (n)".toList := by decide
          rw [hMP]
          exact pre_inf (pre_copy "COUNT(".toList (by decide) (f2 + 1) (c :: rest) hpre)
        · rw [RF_cons_neg _ (Bool.eq_false_iff.mpr hp)]
          exact List.infix_cons (ih rest (by simpa using hl) hinf2)

/-! ## Properties of stripping -/

/-- The head of a dropWhile result fails the dropped predicate. -/
theorem head_dropWhile_no (p : Char → Bool) (l : List Char) {c : Char}
    (h : (l.dropWhile p).head? = some c) : p c = false := by
  induction l with
  | nil => simp at h
  | cons a l ih =>
    rw [List.dropWhile_cons] at h
    split at h
    · exact ih h
    · rename_i hc
      simp only [List.head?_cons, Option.some.injEq] at h
      subst h
      exact Bool.eq_false_iff.mpr hc

/-- A list splits as all-whitespace margins around its stripped core. -/
theorem strip_split (l : List Char) :
    ∃ w1 w2, (∀ c ∈ w1, pySpace c = true) ∧ (∀ c ∈ w2, pySpace c = true) ∧
      l = w1 ++ (pyStripList l ++ w2) := by
  refine ⟨l.takeWhile pySpace, ((l.dropWhile pySpace).reverse.takeWhile pySpace).reverse,
    fun c hc => List.mem_takeWhile_imp hc, fun c hc => ?_, ?_⟩
  · exact List.mem_takeWhile_imp (List.mem_reverse.mp hc)
  · conv_lhs => rw [← List.takeWhile_append_dropWhile pySpace l]
    congr 1
    unfold pyStripList
    conv_lhs => rw [← List.reverse_reverse (l.dropWhile pySpace),
      ← List.takeWhile_append_dropWhile pySpace (l.dropWhile pySpace).reverse]
    rw [List.reverse_append]

/-- A nonempty all-non-whitespace infix of a list is an infix of its stripped
core. -/
theorem sub_strip {u l : List Char} (hne : u ≠ []) (hns : ∀ c ∈ u, pySpace c = false)
    (h : u <:+: l) : u <:+: pyStripList l := by
  obtain ⟨w1, w2, hw1, hw2, hsplit⟩ := strip_split l
  set s := pyStripList l with hs
  rw [hsplit] at h
  have headu : ∃ d u2, u = d :: u2 := by
    cases u with
    | nil => exact absurd rfl hne
    | cons d u2 => exact ⟨d, u2, rfl⟩
  obtain ⟨d, u2, rfl⟩ := headu
  rcases inf_append_split w1 h with h1 | h2 | hcross
  · have hmem : d ∈ w1 := mem_of_inf h1 (by simp)
    have hT := hw1 d hmem
    have hF := hns d (by simp)
    rw [hF] at hT
    exact absurd hT (by decide)
  · rcases inf_append_split s h2 with h3 | h4 | hcross2
    · exact h3
    · have hmem : d ∈ w2 := mem_of_inf h4 (by simp)
      have hT := hw2 d hmem
      have hF := hns d (by simp)
      rw [hF] at hT
      exact absurd hT (by decide)
    · obtain ⟨a, b, hab, ha, hb, hsuf, hpre⟩ := hcross2
      have hbd : ∃ e b2, b = e :: b2 := by
        cases b with
        | nil => exact absurd rfl hb
        | cons e b2 => exact ⟨e, b2, rfl⟩
      obtain ⟨e, b2, rfl⟩ := hbd
      have he1 : e ∈ w2 := hpre.sublist.subset (by simp)
      have he2 : e ∈ d :: u2 := by
        rw [← hab]; exact List.mem_append_right a (by simp)
      have hT := hw2 e he1
      have hF := hns e he2
      rw [hF] at hT
      exact absurd hT (by decide)
  · obtain ⟨a, b, hab, ha, hb, hsuf, hpre⟩ := hcross
    have had : ∃ e a2, a = e :: a2 := by
      cases a with
      | nil => exact absurd rfl ha
      | cons e a2 => exact ⟨e, a2, rfl⟩
    obtain ⟨e, a2, rfl⟩ := had
    have he1 : e ∈ w1 := hsuf.sublist.subset (by simp)
    have he2 : e ∈ d :: u2 := by
      rw [← hab]; exact List.mem_append_left b (by simp)
    have hT := hw1 e he1
    have hF := hns e he2
    rw [hF] at hT
    exact absurd hT (by decide)

/-- The head of a stripped list is not whitespace. -/
theorem strip_head {l : List Char} {c : Char} (h : (pyStripList l).head? = some c) :
    pySpace c = false := by
  have hpre : pyStripList l <+: l.dropWhile pySpace := by
    unfold pyStripList
    have h2 := List.reverse_prefix.mpr
      (List.dropWhile_suffix (l := (l.dropWhile pySpace).reverse) pySpace)
    rwa [List.reverse_reverse] at h2
  exact head_dropWhile_no pySpace l (head_of_pre hpre h)

/-- The last element of a stripped list is not whitespace. -/
theorem strip_last {l : List Char} {c : Char} (h : (pyStripList l).getLast? = some c) :
    pySpace c = false := by
  unfold pyStripList at h
  rw [List.getLast?_reverse] at h
  exact head_dropWhile_no pySpace _ h

/-- Dropping on a list whose head fails the predicate is the identity. -/
theorem dropWhile_id {p : Char → Bool} {l : List Char}
    (h : ∀ c, l.head? = some c → p c = false) : l.dropWhile p = l := by
  cases l with
  | nil => rfl
  | cons a t => exact List.dropWhile_cons_of_neg (by simp [h a rfl])

/-- Stripping a list with non-whitespace ends is the identity. -/
theorem strip_fix {l : List Char}
    (h1 : ∀ c, l.head? = some c → pySpace c = false)
    (h2 : ∀ c, l.getLast? = some c → pySpace c = false) : pyStripList l = l := by
  unfold pyStripList
  rw [dropWhile_id h1, dropWhile_id fun c hc => h2 c (by rwa [List.head?_reverse] at hc),
    List.reverse_reverse]

/-- Replacement of a nonempty list by a nonempty replacement is nonempty. -/
theorem RF_ne_nil {pat rep : List Char} (hrep : rep ≠ []) (f : Nat) (w : List Char)
    (hw : w ≠ []) : replaceFuel pat rep f w ≠ [] := by
  cases w with
  | nil => exact absurd rfl hw
  | cons a rest =>
    cases f with
    | zero => rw [RF_zero]; exact hw
    | succ f2 =>
      by_cases hp : pat.isPrefixOf (a :: rest) = true
      · rw [RF_cons_pos _ hp]
        simp [hrep]
      · rw [RF_cons_neg _ (Bool.eq_false_iff.mpr hp)]
        simp

/-- The label substitution does not create a whitespace head. -/
theorem RF_head_label (f : Nat) (w : List Char)
    (hw : ∀ c, w.head? = some c → pySpace c = false) :
    ∀ c, (replaceFuel "MATCH (n)".toList "MATCH (n:Node)".toList f w).head? = some c →
      pySpace c = false := by
  intro c hc
  cases w with
  | nil => rw [RF_nil_fuel] at hc; simp at hc
  | cons a rest =>
    cases f with
    | zero => rw [RF_zero] at hc; exact hw c hc
    | succ f2 =>
      by_cases hp : ("MATCH (n)".toList).isPrefixOf (a :: rest) = true
      · rw [RF_cons_pos _ hp] at hc
        have hMR : "MATCH (n:Node)".toList = 'M' :: "ATCH (n:Node)".toList := by decide
        rw [hMR] at hc
        simp only [List.cons_append, List.head?_cons, Option.some.injEq] at hc
        exact hc ▸ (show pySpace 'M' = false by decide)
      · rw [RF_cons_neg _ (Bool.eq_false_iff.mpr hp)] at hc
        simp only [List.head?_cons, Option.some.injEq] at hc
        exact hc ▸ hw a rfl

/-- The label substitution does not create a whitespace last character
(either the text keeps its own last character, or the replacement text ends
the output with a parenthesis). -/
theorem RF_last_label :
    ∀ (f : Nat) (w : List Char), w.length ≤ f →
      (∀ c, w.getLast? = some c → pySpace c = false) →
      ∀ c, (replaceFuel "MATCH (n)".toList "MATCH (n:Node)".toList f w).getLast? = some c →
        pySpace c = false := by
  intro f
  induction f with
  | zero =>
    intro w hl hw c hc
    have hwnil : w = [] := List.eq_nil_of_length_eq_zero (Nat.le_zero.mp hl)
    subst hwnil
    rw [RF_nil_fuel] at hc
    simp at hc
  | succ f2 ih =>
    intro w hl hw c hc
    cases w with
    | nil => rw [RF_nil_fuel] at hc; simp at hc
    | cons a rest =>
      by_cases hp : ("MATCH (n)".toList).isPrefixOf (a :: rest) = true
      · rw [RF_cons_pos _ hp] at hc
        obtain ⟨t, ht⟩ := List.isPrefixOf_iff_prefix.mp hp
        have hdrop : (a :: rest).drop ("MATCH (n)".toList).length = t := by
          rw [← ht]; exact List.drop_left _ _
        rw [hdrop] at hc
        by_cases htnil : t = []
        · subst htnil
          rw [RF_nil_fuel, List.append_nil] at hc
          have : ("MATCH (n:Node)".toList).getLast? = some ')' := by decide
          rw [this] at hc
          injection hc with hc2
          exact hc2 ▸ (show pySpace ')' = false by decide)
        · have hrf : replaceFuel "MATCH (n)".toList "MATCH (n:Node)".toList f2 t ≠ [] :=
            RF_ne_nil (by decide) f2 t htnil
          rw [List.getLast?_append_of_ne_nil _ hrf] at hc
          have hlen : t.length ≤ f2 := by
            have hplen : ("MATCH (n)".toList).length = 9 := by decide
            have h9 : ("MATCH (n)".toList).length + t.length = (a :: rest).length := by
              rw [← List.length_append, ht]
            have hb : (a :: rest).length = rest.length + 1 := by simp
            omega
          have hsuf : t <:+ (a :: rest) := ht ▸ ⟨"MATCH (n)".toList, rfl⟩
          have hwt : ∀ d, t.getLast? = some d → pySpace d = false := by
            intro d hd
            exact hw d (by rw [last_of_suf hsuf htnil]; exact hd)
          exact ih t hlen hwt c hc
      · rw [RF_cons_neg _ (Bool.eq_false_iff.mpr hp)] at hc
        by_cases hrnil : rest = []
        · subst hrnil
          rw [RF_nil_fuel] at hc
          simp only [List.getLast?_singleton, Option.some.injEq] at hc
          exact hc ▸ hw a (by simp)
        · have hrf : replaceFuel "MATCH (n)".toList "MATCH (n:Node)".toList f2 rest ≠ [] :=
            RF_ne_nil (by decide) f2 rest hrnil
          have : (a :: replaceFuel "MATCH (n)".toList "MATCH (n:Node)".toList f2 rest) =
              [a] ++ replaceFuel "MATCH (n)".toList "MATCH (n:Node)".toList f2 rest := rfl
          rw [this, List.getLast?_append_of_ne_nil _ hrf] at hc
          have hsuf : rest <:+ (a :: rest) := ⟨[a], rfl⟩
          have hwt : ∀ d, rest.getLast? = some d → pySpace d = false := by
            intro d hd
            exact hw d (by rw [last_of_suf hsuf hrnil]; exact hd)
          exact ih rest (by simpa using hl) hwt c hc

/-! ## String-level facts about the rewriter stages -/

/-- Failing substring test, as absence of the infix. -/
theorem substr_false_iff {n x : String} : substr n x = false ↔ ¬ n.toList <:+: x.toList := by
  rw [Bool.eq_false_iff, Ne, substr_iff]

/-- Colon containment as list membership. -/
theorem substr_colon_iff {x : String} : substr ":" x = true ↔ ':' ∈ x.toList := by
  rw [substr_iff]
  exact single_inf

/-- The limit stage is the identity as soon as `LIMIT` or `COUNT(` occurs in
the upper-cased text. -/
theorem limit_stage_of_has {s1 : String}
    (h : substr "LIMIT" (pyUpper s1) = true ∨ substr "COUNT(" (pyUpper s1) = true) :
    rewrite_limit_stage s1 = s1 := by
  unfold rewrite_limit_stage
  rcases h with h | h <;> simp [h]

/-- Case analysis of the limit stage. -/
theorem limit_stage_cases (s1 : String) :
    rewrite_limit_stage s1 = s1 ++ " LIMIT 1000" ∧
      substr "LIMIT" (pyUpper s1) = false ∧ substr "COUNT(" (pyUpper s1) = false ∨
    rewrite_limit_stage s1 = s1 ∧
      (substr "LIMIT" (pyUpper s1) = true ∨ substr "COUNT(" (pyUpper s1) = true) := by
  unfold rewrite_limit_stage
  by_cases h1 : substr "LIMIT" (pyUpper s1) = true
  · exact Or.inr ⟨by simp [h1], Or.inl h1⟩
  · by_cases h2 : substr "COUNT(" (pyUpper s1) = true
    · exact Or.inr ⟨by simp [h2], Or.inr h2⟩
    · exact Or.inl ⟨by simp [Bool.eq_false_iff.mpr h1, Bool.eq_false_iff.mpr h2],
        Bool.eq_false_iff.mpr h1, Bool.eq_false_iff.mpr h2⟩

/-- The label stage is the identity when a colon occurs in the text. -/
theorem label_stage_of_colon {s : String} (h : substr ":" s = true) :
    rewrite_label_stage s = s := by
  unfold rewrite_label_stage
  simp [h]

/-- The label stage is the identity when the unlabeled pattern is absent. -/
theorem label_stage_of_no_pat {s : String} (h : substr "MATCH (n)" s = false) :
    rewrite_label_stage s = s := by
  unfold rewrite_label_stage
  simp [h]

/-- Appending the limit clause cannot create an occurrence of `MATCH (n)`. -/
theorem no_pat_append {s1 : String} (h : substr "MATCH (n)" s1 = false) :
    substr "MATCH (n)" (s1 ++ " LIMIT 1000") = false := by
  rw [substr_false_iff] at h ⊢
  intro hinf
  have hinf2 : ("MATCH (n)".toList) <:+: s1.toList ++ (" LIMIT 1000" : String).toList := hinf
  rcases inf_append_split s1.toList hinf2 with h1 | h2 | hcross
  · exact h h1
  · exact absurd h2 (by decide)
  · obtain ⟨a, b, hab, ha, hb, hsuf, hpre⟩ := hcross
    have hkill : ∀ x ∈ ("MATCH (n)".toList).tails,
        x.isPrefixOf (" LIMIT 1000" : String).toList = true → x = [] := by decide
    have hbsuf : b <:+ "MATCH (n)".toList := ⟨a, hab⟩
    exact absurd (hkill b ((List.mem_tails b ("MATCH (n)".toList)).mpr hbsuf)
      (List.isPrefixOf_iff_prefix.mpr hpre)) hb

/-- The label substitution, when it fires, leaves a colon in the output. -/
theorem colon_in_replace {s : String} (hpat : substr "MATCH (n)" s = true) :
    substr ":" (pyReplace s "MATCH (n)" "MATCH (n:Node)") = true := by
  rw [substr_colon_iff]
  have hrep := @rep_in "MATCH (n)".toList "MATCH (n:Node)".toList
    (by decide) s.toList.length s.toList (Nat.le_refl _) (substr_iff.mp hpat)
  exact mem_of_inf hrep (by decide)

/-- The appended limit clause makes `LIMIT` occur in the upper-cased text. -/
theorem limit_in_appended (s1 : String) :
    substr "LIMIT" (pyUpper (s1 ++ " LIMIT 1000")) = true := by
  rw [substr_iff]
  have : (pyUpper (s1 ++ " LIMIT 1000")).toList =
      s1.toList.map Char.toUpper ++ (" LIMIT 1000" : String).toList.map Char.toUpper := by
    simp [pyUpper]
  rw [this]
  exact inf_append_r _ (by decide)

/-- Head of an append with nonempty non-whitespace-headed left part. -/
theorem head_append_no_space {u v : List Char} (hu : u ≠ [])
    (hh : ∀ c, u.head? = some c → pySpace c = false) :
    ∀ c, (u ++ v).head? = some c → pySpace c = false := by
  intro c hc
  cases u with
  | nil => exact absurd rfl hu
  | cons a t =>
    simp only [List.cons_append, List.head?_cons, Option.some.injEq] at hc
    exact hc ▸ hh a rfl

/-- Core of the idempotence argument: a second pass over the output of the
limit stage changes nothing, provided the text entering the limit stage has
non-whitespace ends and can no longer trigger the label substitution. -/
theorem limit_and_restrip {s1 : String}
    (hne : s1.toList ≠ [])
    (hh : ∀ c, s1.toList.head? = some c → pySpace c = false)
    (hl : ∀ c, s1.toList.getLast? = some c → pySpace c = false)
    (hnopat : substr "MATCH (n)" s1 = false ∨ substr ":" s1 = true) :
    rewrite_limit_stage (rewrite_label_stage (pyStrip (rewrite_limit_stage s1))) =
      rewrite_limit_stage s1 := by
  rcases limit_stage_cases s1 with ⟨heq, _, _⟩ | ⟨heq, hhas⟩
  · -- the limit clause was appended
    rw [heq]
    have hostrip : pyStrip (s1 ++ " LIMIT 1000") = s1 ++ " LIMIT 1000" := by
      apply String.ext
      show pyStripList (s1.toList ++ (" LIMIT 1000" : String).toList) =
        s1.toList ++ (" LIMIT 1000" : String).toList
      apply strip_fix
      · exact head_append_no_space hne hh
      · intro c hc
        rw [List.getLast?_append_of_ne_nil _ (by decide :
          (" LIMIT 1000" : String).toList ≠ [])] at hc
        have h0 : (" LIMIT 1000" : String).toList.getLast? = some '0' := by decide
        rw [h0] at hc
        injection hc with hc2
        exact hc2 ▸ (show pySpace '0' = false by decide)
    rw [hostrip]
    have holabel : rewrite_label_stage (s1 ++ " LIMIT 1000") = s1 ++ " LIMIT 1000" := by
      rcases hnopat with hnp | hcol
      · exact label_stage_of_no_pat (no_pat_append hnp)
      · apply label_stage_of_colon
        rw [substr_colon_iff] at hcol ⊢
        exact List.mem_append_left _ hcol
    rw [holabel]
    exact limit_stage_of_has (Or.inl (limit_in_appended s1))
  · -- nothing was appended
    rw [heq]
    have hostrip : pyStrip s1 = s1 := by
      apply String.ext
      exact strip_fix hh hl
    rw [hostrip]
    have holabel : rewrite_label_stage s1 = s1 := by
      rcases hnopat with hnp | hcol
      · exact label_stage_of_no_pat hnp
      · exact label_stage_of_colon hcol
    rw [holabel]
    exact limit_stage_of_has hhas

/-! ## C10: idempotence of the rewriter -/

/-- C10 amended: the rewriter is idempotent on every query whose stripped text
is nonempty (for whitespace-only queries the second pass strips the leading
space of the appended limit clause). -/
theorem spec_c10_amended :
    ∀ (q : String) (d1 d2 : List OperatorInfo), pyStrip q ≠ "" →
      generate_optimized_query (generate_optimized_query q d1) d2 =
        generate_optimized_query q d1 := by
  intro q d1 d2 hq
  unfold generate_optimized_query
  have hsl_ne : (pyStrip q).toList ≠ [] := fun h => hq (String.ext h)
  have hh : ∀ c, (pyStrip q).toList.head? = some c → pySpace c = false :=
    fun c hc => strip_head hc
  have hl : ∀ c, (pyStrip q).toList.getLast? = some c → pySpace c = false :=
    fun c hc => strip_last hc
  by_cases hfire : (substr "MATCH (n)" (pyStrip q) && ! substr ":" (pyStrip q)) = true
  · have hpat : substr "MATCH (n)" (pyStrip q) = true := (Bool.and_eq_true _ _ |>.mp hfire).1
    have hlab : rewrite_label_stage (pyStrip q) =
        pyReplace (pyStrip q) "MATCH (n)" "MATCH (n:Node)" := by
      unfold rewrite_label_stage
      simp [hfire]
    rw [hlab]
    apply limit_and_restrip
    · exact RF_ne_nil (by decide) _ _ hsl_ne
    · exact RF_head_label _ _ hh
    · exact RF_last_label _ _ (Nat.le_refl _) hl
    · exact Or.inr (colon_in_replace hpat)
  · have hlab : rewrite_label_stage (pyStrip q) = pyStrip q := by
      unfold rewrite_label_stage
      simp [Bool.eq_false_iff.mpr hfire]
    rw [hlab]
    apply limit_and_restrip hsl_ne hh hl
    have h2 : (substr "MATCH (n)" (pyStrip q) && ! substr ":" (pyStrip q)) = false :=
      Bool.eq_false_iff.mpr hfire
    rcases Bool.and_eq_false_iff.mp h2 with h3 | h3
    · exact Or.inl h3
    · exact Or.inr (by simpa using h3)

/-- C10 counterexample: on the empty query the claimed idempotence fails —
the first pass appends a leading-space limit clause, which the second pass
strips. -/
theorem spec_c10_counterexample :
    generate_optimized_query "" [] = " LIMIT 1000" ∧
    generate_optimized_query (generate_optimized_query "" []) [] = "LIMIT 1000" ∧
    generate_optimized_query (generate_optimized_query "" []) [] ≠
      generate_optimized_query "" [] :=
  ⟨by decide, by decide, by decide⟩

/-- C10 witness: the amended idempotence applied to a concrete query with a
nonempty stripped text. -/
theorem spec_c10_witness :
    pyStrip "MATCH (n) RETURN n" ≠ "" ∧
    generate_optimized_query (generate_optimized_query "MATCH (n) RETURN n" []) [] =
      generate_optimized_query "MATCH (n) RETURN n" [] :=
  ⟨by decide, spec_c10_amended "MATCH (n) RETURN n" [] [] (by decide)⟩

/-! ## C9: the naive rewriter -/

/-- C9 amended: the label substitution fires exactly when `MATCH (n)` occurs
and no colon occurs anywhere in the stripped query (visibly producing the
placeholder-labeled pattern); the limit clause is appended exactly when
neither `LIMIT` nor `COUNT(` occurs, case-insensitively, in the text leaving
the label stage; and a query containing `COUNT(` is never appended with a
limit clause. -/
theorem spec_c9_amended :
    ∀ (q : String) (d : List OperatorInfo),
      ((substr "MATCH (n)" (pyStrip q) && ! substr ":" (pyStrip q)) = true →
        substr "MATCH (n:Node)" (generate_optimized_query q d) = true) ∧
      ((substr "MATCH (n)" (pyStrip q) && ! substr ":" (pyStrip q)) = false →
        rewrite_label_stage (pyStrip q) = pyStrip q) ∧
      (generate_optimized_query q d = rewrite_label_stage (pyStrip q) ++ " LIMIT 1000" ↔
        (! substr "LIMIT" (pyUpper (rewrite_label_stage (pyStrip q))) &&
          ! substr "COUNT(" (pyUpper (rewrite_label_stage (pyStrip q)))) = true) ∧
      (substr "COUNT(" q = true →
        generate_optimized_query q d = rewrite_label_stage (pyStrip q)) := by
  intro q d
  refine ⟨?_, ?_, ?_, ?_⟩
  · intro hfire
    unfold generate_optimized_query
    have hlab : rewrite_label_stage (pyStrip q) =
        pyReplace (pyStrip q) "MATCH (n)" "MATCH (n:Node)" := by
      unfold rewrite_label_stage
      simp [hfire]
    rw [hlab]
    have hpat : substr "MATCH (n)" (pyStrip q) = true := (Bool.and_eq_true _ _ |>.mp hfire).1
    have hrep : ("MATCH (n:Node)".toList) <:+:
        (pyReplace (pyStrip q) "MATCH (n)" "MATCH (n:Node)").toList :=
      rep_in (by decide) _ _ (Nat.le_refl _) (substr_iff.mp hpat)
    rcases limit_stage_cases (pyReplace (pyStrip q) "MATCH (n)" "MATCH (n:Node)") with
      ⟨heq, _, _⟩ | ⟨heq, _⟩
    · rw [heq, substr_iff]
      exact inf_append_l _ hrep
    · rw [heq, substr_iff]
      exact hrep
  · intro h
    unfold rewrite_label_stage
    simp [h]
  · unfold generate_optimized_query
    constructor
    · intro hgen
      by_contra hc
      have hfalse := Bool.eq_false_iff.mpr hc
      have hid : rewrite_limit_stage (rewrite_label_stage (pyStrip q)) =
          rewrite_label_stage (pyStrip q) := by
        apply limit_stage_of_has
        rcases Bool.and_eq_false_iff.mp hfalse with h3 | h3
        · exact Or.inl (by simpa using h3)
        · exact Or.inr (by simpa using h3)
      rw [hid] at hgen
      have h4 := congrArg String.toList hgen
      have h5 := congrArg List.length h4
      simp only [List.length_append] at h5
      have h6 : ((" LIMIT 1000" : String).toList).length = 11 := by decide
      have h7 : (rewrite_label_stage (pyStrip q) ++ " LIMIT 1000").toList.length =
          (rewrite_label_stage (pyStrip q)).toList.length +
            ((" LIMIT 1000" : String).toList).length := by
        simp [List.length_append]
      omega
    · intro hcond
      unfold rewrite_limit_stage
      simp [hcond]
  · intro hcnt
    unfold generate_optimized_query
    apply limit_stage_of_has
    right
    rw [substr_iff]
    have h1 : "COUNT(".toList <:+: q.toList := substr_iff.mp hcnt
    have h2 : "COUNT(".toList <:+: pyStripList q.toList :=
      sub_strip (by decide) (by decide) h1
    have h3 : "COUNT(".toList <:+: (rewrite_label_stage (pyStrip q)).toList := by
      unfold rewrite_label_stage
      by_cases hfire : (substr "MATCH (n)" (pyStrip q) && ! substr ":" (pyStrip q)) = true
      · simp only [hfire, if_true]
        exact count_preserved _ _ (Nat.le_refl _) h2
      · simp only [Bool.eq_false_iff.mpr hfire, if_false]
        exact h2
    have h4 := inf_map Char.toUpper h3
    have h5 : ("COUNT(".toList).map Char.toUpper = "COUNT(".toList := by decide
    rw [h5] at h4
    exact h4

/-- C9 counterexample: the claim requires the replacement whenever
`MATCH (n)` occurs with no colon inside that node pattern; on a query whose
colon sits in a relationship pattern elsewhere, the code leaves the pattern
unlabeled because it tests for a colon anywhere in the text. -/
theorem spec_c9_counterexample :
    substr "MATCH (n)" "MATCH (n)-[r:KNOWS]->(m) RETURN n" = true ∧
    generate_optimized_query "MATCH (n)-[r:KNOWS]->(m) RETURN n" [] =
      "MATCH (n)-[r:KNOWS]->(m) RETURN n LIMIT 1000" ∧
    substr "MATCH (n:Node)"
      (generate_optimized_query "MATCH (n)-[r:KNOWS]->(m) RETURN n" []) = false :=
  ⟨by decide, by decide, by decide⟩

/-- C9 witness: on a query with an unlabeled pattern, no colon and an
aggregation call, the substitution fires and no limit clause is appended. -/
theorem spec_c9_witness :
    (substr "MATCH (n)" (pyStrip "MATCH (n) RETURN COUNT(n)") &&
      ! substr ":" (pyStrip "MATCH (n) RETURN COUNT(n)")) = true ∧
    substr "COUNT(" "MATCH (n) RETURN COUNT(n)" = true ∧
    substr "MATCH (n:Node)" (generate_optimized_query "MATCH (n) RETURN COUNT(n)" []) = true ∧
    generate_optimized_query "MATCH (n) RETURN COUNT(n)" [] =
      "MATCH (n:Node) RETURN COUNT(n)" :=
  ⟨by decide, by decide,
    (spec_c9_amended "MATCH (n) RETURN COUNT(n)" []).1 (by decide),
    ((spec_c9_amended "MATCH (n) RETURN COUNT(n)" []).2.2.2 (by decide)).trans (by decide)⟩
